import Mathlib

/-!
Verification of the VISOR custody monitor's core logic.

The program is a small JavaScript service (`src/server.js`): it validates a
request identifier, fetches a remote document, extracts an embedded array of
raw custody records by trying several strategies in order, sorts the records
by intake date and derives a custody/gap timeline (`processCustodyData`).

The embedding below translates that logic to Lean.  Date-valued fields are
modelled as `DateField`: the JavaScript code only ever observes such a field
through its truthiness (`!record.idoc_releasedate`) and, when truthy, through
the millisecond timestamp produced by `new Date(...)`; so a field is `null`
(absent), the empty string (falsy but present), or a parseable string carrying
its timestamp.  Regular-expression matching over the fetched HTML cannot be
embedded; each extraction strategy is therefore represented by its outcome
(no match, a match whose JSON parse throws, or a successfully parsed value),
while the selection logic around the strategies is translated faithfully.
-/

namespace Visor

/-- A date-valued field as the JS code observes it: `null`, the empty string,
or a parseable date string carrying the timestamp `new Date(s)` yields. -/
inductive DateField where
  | null : DateField
  | emptyStr : DateField
  | val : Int → DateField
deriving DecidableEq, Repr

/-- JavaScript truthiness of a date field: `null` and `""` are falsy. -/
def DateField.truthy : DateField → Bool
  | .val _ => true
  | _ => false

/-- The timestamp of `new Date(x)` for a truthy field (only used under a
truthiness guard in the source). -/
def DateField.ms : DateField → Int
  | .val m => m
  | _ => 0

/-- A raw custody record as extracted from the remote payload.
`idoc_name` is the name-like field; the empty string stands for any falsy
value (absent or empty). -/
structure RawCustodyRecord where
  idoc_name : String
  idoc_facilityid : String
  savin_intakedate : DateField
  idoc_releasedate : DateField
deriving DecidableEq, Repr

/-- Sort key used by the comparator `new Date(a.savin_intakedate || 0)`:
a falsy intake date is keyed as the epoch (0). -/
def intakeKey (r : RawCustodyRecord) : Int :=
  match r.savin_intakedate with
  | .val m => m
  | _ => 0

/-- The comparator's order: `dateA - dateB` non-positive. -/
def intakeLE (a b : RawCustodyRecord) : Prop := intakeKey a ≤ intakeKey b

instance : DecidableRel intakeLE := fun a b => by
  unfold intakeLE; infer_instance

instance : IsTotal RawCustodyRecord intakeLE :=
  ⟨fun a b => le_total (intakeKey a) (intakeKey b)⟩

instance : IsTrans RawCustodyRecord intakeLE :=
  ⟨fun _ _ _ h h' => le_trans h h'⟩

/-- `custodyData.sort((a, b) => dateA - dateB)`: ECMAScript guarantees
`Array.prototype.sort` is stable, so the in-place sort is a stable sort by
the intake key. -/
def sortRecords (l : List RawCustodyRecord) : List RawCustodyRecord :=
  List.insertionSort intakeLE l

/-- One element of the `records` array built by `processCustodyData`:
either a `CUSTODY` entry or an `OUT_OF_CUSTODY` gap entry. -/
inductive TimelineEntry where
  | custody (offenderNumber facility : String)
      (intakeDate releaseDate : DateField) (currentlyInCustody : Bool)
  | outOfCustody (durationMs days hours minutes : Int)
      (startDate endDate : DateField)
deriving DecidableEq, Repr

def TimelineEntry.isCustody : TimelineEntry → Bool
  | .custody _ _ _ _ _ => true
  | _ => false

def TimelineEntry.isGap : TimelineEntry → Bool
  | .outOfCustody _ _ _ _ _ _ => true
  | _ => false

/-- The `currentlyInCustody` flag of a custody entry. -/
def TimelineEntry.inCustodyFlag : TimelineEntry → Option Bool
  | .custody _ _ _ _ c => some c
  | _ => none

/-- The `releaseDate` of a custody entry. -/
def TimelineEntry.relDate : TimelineEntry → Option DateField
  | .custody _ _ _ rel _ => some rel
  | _ => none

/-- The `intakeDate` of a custody entry. -/
def TimelineEntry.intDate : TimelineEntry → Option DateField
  | .custody _ _ int _ _ => some int
  | _ => none

/-- The `startDate` of a gap entry. -/
def TimelineEntry.gapStart : TimelineEntry → Option DateField
  | .outOfCustody _ _ _ _ s _ => some s
  | _ => none

/-- The `endDate` of a gap entry. -/
def TimelineEntry.gapEnd : TimelineEntry → Option DateField
  | .outOfCustody _ _ _ _ _ e => some e
  | _ => none

/-- The `durationMs` of a gap entry (0 on custody entries). -/
def TimelineEntry.durMs : TimelineEntry → Int
  | .outOfCustody d _ _ _ _ _ => d
  | _ => 0

/-- The `days` field of a gap entry (0 on custody entries). -/
def TimelineEntry.gDays : TimelineEntry → Int
  | .outOfCustody _ d _ _ _ _ => d
  | _ => 0

/-- The `hours` field of a gap entry (0 on custody entries). -/
def TimelineEntry.gHours : TimelineEntry → Int
  | .outOfCustody _ _ h _ _ _ => h
  | _ => 0

/-- The `minutes` field of a gap entry (0 on custody entries). -/
def TimelineEntry.gMinutes : TimelineEntry → Int
  | .outOfCustody _ _ _ m _ _ => m
  | _ => 0

/-- The `CUSTODY` entry pushed for a record: `currentlyInCustody` is the
negated truthiness of `idoc_releasedate`. -/
def mkCustody (r : RawCustodyRecord) : TimelineEntry :=
  .custody r.idoc_name r.idoc_facilityid r.savin_intakedate r.idoc_releasedate
    (!r.idoc_releasedate.truthy)

/-- `gapMs = nextIntakeTime - releaseTime`. -/
def gapMs (r r' : RawCustodyRecord) : Int :=
  r'.savin_intakedate.ms - r.idoc_releasedate.ms

/-- The `OUT_OF_CUSTODY` entry: `Math.floor` division of `gapMs` by
86400000, of `gapMs % 86400000` by 3600000, of `gapMs % 3600000` by 60000
(`Int` division is floor division for these positive divisors). -/
def mkGap (r r' : RawCustodyRecord) : TimelineEntry :=
  .outOfCustody (gapMs r r')
    (gapMs r r' / 86400000)
    (gapMs r r' % 86400000 / 3600000)
    (gapMs r r' % 3600000 / 60000)
    r.idoc_releasedate r'.savin_intakedate

/-- The gap entries pushed between a record and its successor: one entry
when `record.idoc_releasedate` and `nextRecord.savin_intakedate` are truthy
and `gapMs > 0`, none otherwise. -/
def maybeGap (r r' : RawCustodyRecord) : List TimelineEntry :=
  if r.idoc_releasedate.truthy && r'.savin_intakedate.truthy
      && decide (0 < gapMs r r') then
    [mkGap r r']
  else []

/-- The loop of `processCustodyData`: for each record push a `CUSTODY`
entry, then (when not at the last index) the gap entries to the next
record. -/
def buildEntries : List RawCustodyRecord → List TimelineEntry
  | [] => []
  | [r] => [mkCustody r]
  | r :: r' :: rest => mkCustody r :: (maybeGap r r' ++ buildEntries (r' :: rest))

/-- The JSON object `processCustodyData` returns (minus the wall-clock
`retrievedAt` field). -/
structure ProcessResult where
  iicId : String
  totalRecords : Nat
  records : List TimelineEntry
  currentlyInCustody : Bool
deriving DecidableEq, Repr

/-- `processCustodyData(iicId, custodyData)`: sort in place by intake date,
build the timeline, and report `currentlyInCustody` from the last element of
the sorted array (`custodyData.length > 0 && !custodyData[last].idoc_releasedate`). -/
def processCustodyData (iicId : String) (custodyData : List RawCustodyRecord) :
    ProcessResult :=
  let sorted := sortRecords custodyData
  { iicId := iicId
    totalRecords := custodyData.length
    records := buildEntries sorted
    currentlyInCustody :=
      match sorted.getLast? with
      | some r => !r.idoc_releasedate.truthy
      | none => false }

/-- Number of gap entries the loop emits for a record list. -/
def gapCount : List RawCustodyRecord → Nat
  | [] => 0
  | [_] => 0
  | r :: r' :: rest => (maybeGap r r').length + gapCount (r' :: rest)

/-! ### Identifier validation (`/api/custody-history/:iicid`) -/

/-- One character of the class `[a-f0-9-]` with the `i` flag. -/
def isIicChar (c : Char) : Bool :=
  ('a' ≤ c && c ≤ 'f') || ('A' ≤ c && c ≤ 'F') || ('0' ≤ c && c ≤ '9') || c == '-'

/-- The test `/^[a-f0-9-]{36}$/i.test(iicId)`: exactly 36 characters, each
hexadecimal (either case) or a hyphen. -/
def validIicId (s : String) : Bool :=
  s.length == 36 && s.toList.all isIicChar

/-- The first step of the handler: a 400 response on an invalid identifier,
otherwise proceed to fetch the remote URL. -/
inductive HandlerStep where
  | invalidId (status : Nat)
  | fetchRemote (url : String)
deriving DecidableEq, Repr

/-- Lines 17-20 of the handler: `if (!valid) return res.status(400)...`,
otherwise the remote fetch of the VISOR URL is performed. -/
def custodyHistoryValidate (iicId : String) : HandlerStep :=
  if validIicId iicId then
    .fetchRemote ("https://visor.oregon.gov/iic-info?iicid=" ++ iicId)
  else
    .invalidId 400

/-! ### HTML extraction (`extractCustodyDataFromHTML`) -/

/-- Outcome of matching one extraction strategy's regular expression against
the document and `JSON.parse`-ing the captured region.  The matching itself
is outside the embedding; the selection logic over these outcomes is the
code's. -/
inductive StrategyOutcome where
  | noMatch : StrategyOutcome
  | parseFail : StrategyOutcome
  | parsedNonArray : StrategyOutcome
  | parsed (data : List RawCustodyRecord) : StrategyOutcome
deriving DecidableEq, Repr

/-- The acceptance test applied to a strategy's outcome:
`Array.isArray(data) && data.length > 0 && data[0].idoc_name` (the empty
string standing for a falsy name field). -/
def validExtract : StrategyOutcome → Option (List RawCustodyRecord)
  | .parsed (r :: t) => if r.idoc_name ≠ "" then some (r :: t) else none
  | _ => none

/-- The strategy loop of `extractCustodyDataFromHTML`: return the data of
the first strategy whose outcome passes the acceptance test; `null` when
every strategy fails. -/
def extractCustodyDataFromHTML :
    List StrategyOutcome → Option (List RawCustodyRecord)
  | [] => none
  | o :: rest =>
    match validExtract o with
    | some d => some d
    | none => extractCustodyDataFromHTML rest

/-- The JSON body of a non-error response of the handler. -/
structure SuccessResponse where
  iicId : String
  records : List TimelineEntry
  totalRecords : Option Nat
  message : Option String
  currentlyInCustody : Option Bool
deriving DecidableEq, Repr

/-- The handler after the HTML fetch (lines 301-312 of `src/server.js`):
`if (!custodyData || custodyData.length === 0)` answer the not-found body
`{records: [], totalRecords: 0, message}` as a success response, else answer
`processCustodyData`'s result. -/
def respondFromHTML (iicId : String) (strategies : List StrategyOutcome) :
    SuccessResponse :=
  match extractCustodyDataFromHTML strategies with
  | none =>
    ⟨iicId, [], some 0, some "No custody history found for this IIC ID", none⟩
  | some d =>
    if d.isEmpty then
      ⟨iicId, [], some 0, some "No custody history found for this IIC ID", none⟩
    else
      let p := processCustodyData iicId d
      ⟨iicId, p.records, some p.totalRecords, none, some p.currentlyInCustody⟩

end Visor

namespace Visor

/-! ### Helper lemmas about the timeline builder -/

theorem buildEntries_cons_cons (r r' : RawCustodyRecord)
    (rest : List RawCustodyRecord) :
    buildEntries (r :: r' :: rest) =
      mkCustody r :: (maybeGap r r' ++ buildEntries (r' :: rest)) := rfl

theorem buildEntries_head (r : RawCustodyRecord) (rest : List RawCustodyRecord) :
    ∃ t, buildEntries (r :: rest) = mkCustody r :: t := by
  cases rest with
  | nil => exact ⟨[], rfl⟩
  | cons r' rest' => exact ⟨maybeGap r r' ++ buildEntries (r' :: rest'), rfl⟩

theorem maybeGap_eq_nil_or (r r' : RawCustodyRecord) :
    maybeGap r r' = [] ∨
      (maybeGap r r' = [mkGap r r'] ∧ r.idoc_releasedate.truthy = true ∧
        r'.savin_intakedate.truthy = true ∧ 0 < gapMs r r') := by
  unfold maybeGap
  split
  · rename_i hc
    simp only [Bool.and_eq_true, decide_eq_true_eq] at hc
    exact Or.inr ⟨rfl, hc.1.1, hc.1.2, hc.2⟩
  · exact Or.inl rfl

theorem length_buildEntries (l : List RawCustodyRecord) :
    (buildEntries l).length = l.length + gapCount l := by
  induction l with
  | nil => rfl
  | cons r t ih =>
    cases t with
    | nil => rfl
    | cons r' rest =>
      rw [buildEntries_cons_cons]
      simp only [List.length_cons, List.length_append, gapCount, ih]
      omega

theorem filter_custody_buildEntries (l : List RawCustodyRecord) :
    (buildEntries l).filter TimelineEntry.isCustody = l.map mkCustody := by
  induction l with
  | nil => rfl
  | cons r t ih =>
    cases t with
    | nil => rfl
    | cons r' rest =>
      have hmk : TimelineEntry.isCustody (mkCustody r) = true := rfl
      have hgap : (maybeGap r r').filter TimelineEntry.isCustody = [] := by
        rcases maybeGap_eq_nil_or r r' with h | ⟨h, _⟩ <;> rw [h] <;> rfl
      simp only [buildEntries_cons_cons, List.filter_cons, hmk, List.filter_append,
        hgap, List.map_cons]
      rw [ih]
      rfl

end Visor

namespace Visor

/-- The shape `Custody (Gap? Custody)*`: a custody entry first, every gap
entry strictly between two custody entries, and each gap bridging the
preceding custody entry's release date to the following custody entry's
intake date. -/
inductive Alternates : List TimelineEntry → Prop where
  | single (e : TimelineEntry) :
      e.isCustody = true → Alternates [e]
  | twoCust (e e' : TimelineEntry) (l : List TimelineEntry) :
      e.isCustody = true → e'.isCustody = true →
      Alternates (e' :: l) → Alternates (e :: e' :: l)
  | withGap (e g e' : TimelineEntry) (l : List TimelineEntry) :
      e.isCustody = true → g.isGap = true → e'.isCustody = true →
      g.gapStart = e.relDate → g.gapEnd = e'.intDate →
      Alternates (e' :: l) → Alternates (e :: g :: e' :: l)

theorem alternates_buildEntries (l : List RawCustodyRecord) (h : l ≠ []) :
    Alternates (buildEntries l) := by
  induction l with
  | nil => exact absurd rfl h
  | cons r t ih =>
    cases t with
    | nil => exact Alternates.single (mkCustody r) rfl
    | cons r' rest =>
      have halt : Alternates (buildEntries (r' :: rest)) := ih (by simp)
      obtain ⟨t', ht'⟩ := buildEntries_head r' rest
      rw [ht'] at halt
      rw [buildEntries_cons_cons, ht']
      rcases maybeGap_eq_nil_or r r' with hg | ⟨hg, _, _, _⟩
      · rw [hg]
        exact Alternates.twoCust _ _ _ rfl rfl halt
      · rw [hg]
        exact Alternates.withGap _ _ _ _ rfl rfl rfl rfl rfl halt

/-- Claim C1: for every non-empty record list, the timeline built over the
sorted records has length equal to the input count plus the number of
emitted gaps, alternates custody/gap entries starting with a custody entry
(each gap immediately after its originating custody entry and before the
next one), and lists the custody entries in the order of the sorted
records. -/
theorem timeline_shape (l : List RawCustodyRecord) (h : l ≠ []) :
    (buildEntries (sortRecords l)).length = l.length + gapCount (sortRecords l)
    ∧ Alternates (buildEntries (sortRecords l))
    ∧ (buildEntries (sortRecords l)).filter TimelineEntry.isCustody
        = (sortRecords l).map mkCustody := by
  have hlen : (sortRecords l).length = l.length :=
    (List.perm_insertionSort intakeLE l).length_eq
  have hne : sortRecords l ≠ [] := by
    intro h0
    exact h (List.length_eq_zero.mp (by rw [← hlen, h0]; rfl))
  exact ⟨by rw [length_buildEntries, hlen],
    alternates_buildEntries _ hne, filter_custody_buildEntries _⟩

/-- Input used to instantiate claim C1's theorem. -/
def wTimeline : List RawCustodyRecord :=
  [⟨"A", "F1", .val 0, .val 100⟩, ⟨"B", "F2", .val 90061100, .null⟩]

/-- Claim C1, instantiated at a concrete two-record input. -/
theorem timeline_shape_witness :
    (buildEntries (sortRecords wTimeline)).length
        = wTimeline.length + gapCount (sortRecords wTimeline)
    ∧ Alternates (buildEntries (sortRecords wTimeline))
    ∧ (buildEntries (sortRecords wTimeline)).filter TimelineEntry.isCustody
        = (sortRecords wTimeline).map mkCustody :=
  timeline_shape wTimeline (by decide)

end Visor

namespace Visor

theorem buildEntries_append_mid (l1 : List RawCustodyRecord)
    (r r' : RawCustodyRecord) (l2 : List RawCustodyRecord) :
    ∃ front, buildEntries (l1 ++ r :: r' :: l2) =
      front ++ mkCustody r :: (maybeGap r r' ++ buildEntries (r' :: l2)) := by
  induction l1 with
  | nil => exact ⟨[], rfl⟩
  | cons a t ih =>
    obtain ⟨front, hfront⟩ := ih
    cases t with
    | nil =>
      refine ⟨mkCustody a :: maybeGap a r, ?_⟩
      simp only [List.nil_append, List.cons_append, buildEntries_cons_cons]
    | cons b t' =>
      refine ⟨mkCustody a :: (maybeGap a b ++ front), ?_⟩
      have : (a :: (b :: t')) ++ r :: r' :: l2 = a :: b :: (t' ++ r :: r' :: l2) := by
        simp
      rw [this, buildEntries_cons_cons]
      rw [List.cons_append] at hfront
      rw [hfront]
      simp

/-- Claim C3: between two consecutive sorted records the timeline contains
the first record's custody entry, then exactly the gap entries `maybeGap`
emits, then the second record's custody entry; a gap is emitted iff the
first record's release date and the second's intake date are truthy and the
difference is strictly positive, so a `null` release, a missing date on
either side, or a non-positive difference suppresses the gap, and every
emitted gap entry has strictly positive duration. -/
theorem gap_emission_between (l1 l2 : List RawCustodyRecord)
    (r r' : RawCustodyRecord) :
    (∃ front tail, buildEntries (l1 ++ r :: r' :: l2) =
        front ++ mkCustody r :: (maybeGap r r' ++ (mkCustody r' :: tail)))
    ∧ (maybeGap r r' ≠ [] ↔
        (r.idoc_releasedate.truthy = true ∧ r'.savin_intakedate.truthy = true
          ∧ 0 < gapMs r r'))
    ∧ (r.idoc_releasedate = DateField.null → maybeGap r r' = [])
    ∧ (r'.savin_intakedate.truthy = false → maybeGap r r' = [])
    ∧ (gapMs r r' ≤ 0 → maybeGap r r' = [])
    ∧ (∀ e ∈ maybeGap r r', e.isGap = true ∧ e.durMs = gapMs r r'
        ∧ 0 < e.durMs) := by
  refine ⟨?_, ?_, ?_, ?_, ?_, ?_⟩
  · obtain ⟨front, hfront⟩ := buildEntries_append_mid l1 r r' l2
    obtain ⟨t, ht⟩ := buildEntries_head r' l2
    exact ⟨front, t, by rw [hfront, ht]⟩
  · rcases maybeGap_eq_nil_or r r' with hg | ⟨hg, h1, h2, h3⟩
    · constructor
      · intro hne; exact absurd hg hne
      · rintro ⟨h1, h2, h3⟩
        unfold maybeGap at hg
        rw [h1, h2, decide_eq_true h3] at hg
        simp at hg
    · rw [hg]
      exact ⟨fun _ => ⟨h1, h2, h3⟩, fun _ => by simp⟩
  · intro hnull
    unfold maybeGap
    rw [hnull]
    rfl
  · intro hfalse
    unfold maybeGap
    rw [hfalse]
    simp
  · intro hle
    unfold maybeGap
    have : decide (0 < gapMs r r') = false := by
      simp [decide_eq_false_iff_not]
      omega
    rw [this]
    simp
  · intro e he
    rcases maybeGap_eq_nil_or r r' with hg | ⟨hg, _, _, h3⟩
    · rw [hg] at he; cases he
    · rw [hg] at he
      rcases List.mem_singleton.mp he with rfl
      exact ⟨rfl, rfl, h3⟩

/-- Record with a `null` release date used to instantiate claim C3. -/
def wGapNullRel : RawCustodyRecord := ⟨"N", "F3", .val 0, .null⟩

/-- Second record used to instantiate claim C3. -/
def wGapNext : RawCustodyRecord := ⟨"M", "F4", .val 500, .null⟩

/-- Claim C3, instantiated: a record whose release date is `null` emits no
gap entry before the next record. -/
theorem gap_emission_between_witness :
    maybeGap wGapNullRel wGapNext = [] :=
  (gap_emission_between [] [] wGapNullRel wGapNext).2.2.1 rfl

end Visor

namespace Visor

/-- Records whose gap is exactly 90061000 ms, used to instantiate claim C4. -/
def wGapA : RawCustodyRecord := ⟨"A", "F1", .val 0, .val 100⟩

/-- Second record of the 90061000 ms pair for claim C4. -/
def wGapB : RawCustodyRecord := ⟨"B", "F2", .val 90061100, .null⟩

/-- The gap entry the builder emits between `wGapA` and `wGapB`. -/
def wGapEntry : TimelineEntry :=
  .outOfCustody 90061000 1 1 1 (.val 100) (.val 90061100)

/-- Claim C4: an emitted gap entry decomposes its duration into whole days,
remaining hours and remaining minutes by floor division by 86400000, 3600000
and 60000 (residual truncated), and a gap of exactly 90061000 ms decomposes
to 1 day, 1 hour, 1 minute. -/
theorem gap_decomposition :
    (∀ r r' g, maybeGap r r' = [g] →
      g.gDays = Int.fdiv g.durMs 86400000
      ∧ g.gHours = Int.fdiv (g.durMs % 86400000) 3600000
      ∧ g.gMinutes = Int.fdiv (g.durMs % 3600000) 60000
      ∧ g.durMs = gapMs r r')
    ∧ maybeGap wGapA wGapB = [wGapEntry] := by
  constructor
  · intro r r' g hm
    rcases maybeGap_eq_nil_or r r' with h | ⟨h, _⟩
    · rw [h] at hm; cases hm
    · rw [h] at hm
      have hg : g = mkGap r r' := by
        injection hm with h1 _
        exact h1.symm
      subst hg
      refine ⟨?_, ?_, ?_, rfl⟩
      · exact (Int.fdiv_eq_ediv _ (by norm_num)).symm
      · exact (Int.fdiv_eq_ediv _ (by norm_num)).symm
      · exact (Int.fdiv_eq_ediv _ (by norm_num)).symm
  · decide

/-- Claim C4's universal part, instantiated at the 90061000 ms gap. -/
theorem gap_decomposition_witness :
    wGapEntry.gDays = Int.fdiv wGapEntry.durMs 86400000
    ∧ wGapEntry.gHours = Int.fdiv (wGapEntry.durMs % 86400000) 3600000
    ∧ wGapEntry.gMinutes = Int.fdiv (wGapEntry.durMs % 3600000) 60000
    ∧ wGapEntry.durMs = gapMs wGapA wGapB :=
  gap_decomposition.1 wGapA wGapB wGapEntry (by decide)

/-- Claim C6: an identifier that fails the 36-character hexadecimal-with-
hyphens test makes the handler answer a 400 client error and never reach the
remote fetch; in particular for the identifier "not-36-chars". -/
theorem iic_validation (s : String) (h : validIicId s = false) :
    custodyHistoryValidate s = .invalidId 400
    ∧ ∀ u, custodyHistoryValidate s ≠ .fetchRemote u := by
  have hv : custodyHistoryValidate s = .invalidId 400 := by
    unfold custodyHistoryValidate
    rw [h]
    rfl
  exact ⟨hv, fun u hu => by rw [hv] at hu; cases hu⟩

/-- Claim C6, instantiated at the identifier "not-36-chars". -/
theorem iic_validation_witness :
    validIicId "not-36-chars" = false
    ∧ custodyHistoryValidate "not-36-chars" = .invalidId 400 :=
  ⟨by decide, (iic_validation "not-36-chars" (by decide)).1⟩

/-- Claim C10: release-date presence is tested by JS truthiness, so a record
whose release date is any falsy value — `null` or the empty string — yields
a custody entry with `currentlyInCustody = true`, emits no gap entry toward
any successor, and makes the summary `currentlyInCustody` true when it is
the chronologically last record. -/
theorem falsy_release (r : RawCustodyRecord)
    (h : r.idoc_releasedate = DateField.null
      ∨ r.idoc_releasedate = DateField.emptyStr) :
    (mkCustody r).inCustodyFlag = some true
    ∧ (∀ r', maybeGap r r' = [])
    ∧ (∀ iic l, (sortRecords l).getLast? = some r →
        (processCustodyData iic l).currentlyInCustody = true) := by
  have ht : r.idoc_releasedate.truthy = false := by
    rcases h with h | h <;> rw [h] <;> rfl
  refine ⟨?_, ?_, ?_⟩
  · simp [mkCustody, TimelineEntry.inCustodyFlag, ht]
  · intro r'
    unfold maybeGap
    rw [ht]
    rfl
  · intro iic l hl
    unfold processCustodyData
    simp only [hl, ht]
    rfl

/-- Record with an empty-string release date, used to instantiate claim C10. -/
def wFalsy : RawCustodyRecord := ⟨"W", "F", .val 5, .emptyStr⟩

/-- Claim C10, instantiated at a record whose release date is the empty
string. -/
theorem falsy_release_witness :
    (mkCustody wFalsy).inCustodyFlag = some true
    ∧ (processCustodyData "i0" [wFalsy]).currentlyInCustody = true :=
  ⟨(falsy_release wFalsy (Or.inr rfl)).1,
   (falsy_release wFalsy (Or.inr rfl)).2.2 "i0" [wFalsy] (by decide)⟩

end Visor

namespace Visor


theorem extractCustodyDataFromHTML_cons (o : StrategyOutcome)
    (rest : List StrategyOutcome) :
    extractCustodyDataFromHTML (o :: rest) =
      match validExtract o with
      | some d => some d
      | none => extractCustodyDataFromHTML rest := rfl

theorem validExtract_parsed (r : RawCustodyRecord) (t : List RawCustodyRecord) :
    validExtract (.parsed (r :: t)) =
      if r.idoc_name ≠ "" then some (r :: t) else none := rfl

/-- Claim C7: every failing extraction strategy (no match, parse error, or a
parsed value without the expected shape) is non-fatal — the loop just moves
to the next strategy — and when every strategy fails the handler answers the
success body `{records: [], totalRecords: 0, message}`, never an error. -/
theorem extraction_miss (iic : String) (strats : List StrategyOutcome)
    (h : ∀ o ∈ strats, validExtract o = none) :
    extractCustodyDataFromHTML strats = none
    ∧ respondFromHTML iic strats =
        ⟨iic, [], some 0, some "No custody history found for this IIC ID", none⟩
    ∧ (∀ o rest, validExtract o = none →
        extractCustodyDataFromHTML (o :: rest) = extractCustodyDataFromHTML rest)
    ∧ validExtract .noMatch = none
    ∧ validExtract .parseFail = none
    ∧ validExtract .parsedNonArray = none := by
  have hstep : ∀ o rest, validExtract o = none →
      extractCustodyDataFromHTML (o :: rest) = extractCustodyDataFromHTML rest := by
    intro o rest ho
    rw [extractCustodyDataFromHTML_cons, ho]
  have hmain : extractCustodyDataFromHTML strats = none := by
    induction strats with
    | nil => rfl
    | cons o rest ih =>
      rw [hstep o rest (h o (List.mem_cons_self o rest))]
      exact ih fun x hx => h x (List.mem_cons_of_mem o hx)
  refine ⟨hmain, ?_, hstep, rfl, rfl, rfl⟩
  unfold respondFromHTML
  rw [hmain]

/-- Strategy outcomes in which every strategy fails, for claim C7. -/
def wMissStrats : List StrategyOutcome :=
  [.noMatch, .parseFail, .parsedNonArray, .parsed []]

/-- Claim C7, instantiated: with four failing strategies the handler answers
the empty-result success body. -/
theorem extraction_miss_witness :
    respondFromHTML "id0" wMissStrats =
      ⟨"id0", [], some 0, some "No custody history found for this IIC ID", none⟩ :=
  (extraction_miss "id0" wMissStrats (by decide)).2.1

/-- Claim C8: the extractor returns the data of the first strategy whose
outcome is a parseable non-empty array whose head has a truthy name field;
a parsed result that is empty or lacks the name field does not terminate the
loop. -/
theorem first_valid_strategy (front post : List StrategyOutcome)
    (d : List RawCustodyRecord)
    (hfront : ∀ o ∈ front, validExtract o = none)
    (hd : validExtract (.parsed d) = some d) :
    extractCustodyDataFromHTML (front ++ .parsed d :: post) = some d
    ∧ (∀ r t, validExtract (.parsed (r :: t)) = some (r :: t) ↔ r.idoc_name ≠ "")
    ∧ (∀ rest, extractCustodyDataFromHTML (.parsed [] :: rest)
        = extractCustodyDataFromHTML rest)
    ∧ (∀ r t rest, r.idoc_name = "" →
        extractCustodyDataFromHTML (.parsed (r :: t) :: rest)
          = extractCustodyDataFromHTML rest) := by
  refine ⟨?_, ?_, ?_, ?_⟩
  · induction front with
    | nil =>
      rw [List.nil_append, extractCustodyDataFromHTML_cons, hd]
    | cons o rest ih =>
      rw [List.cons_append, extractCustodyDataFromHTML_cons,
        hfront o (List.mem_cons_self o rest)]
      exact ih fun x hx => hfront x (List.mem_cons_of_mem o hx)
  · intro r t
    constructor
    · intro hsome hname
      rw [validExtract_parsed, if_neg (fun hc => hc hname)] at hsome
      exact Option.noConfusion hsome
    · intro hname
      rw [validExtract_parsed, if_pos hname]
  · intro rest
    rfl
  · intro r t rest hname
    rw [extractCustodyDataFromHTML_cons, validExtract_parsed,
      if_neg (fun hc => hc hname)]

/-- Record list returned by the first valid strategy for claim C8. -/
def wValidData : List RawCustodyRecord := [⟨"372556", "SRCI", .val 10, .val 20⟩]

/-- Failing outcomes placed before the valid strategy for claim C8. -/
def wFrontStrats : List StrategyOutcome := [.noMatch, .parsed [], .parseFail]

/-- Claim C8, instantiated: two failing strategies and an empty parsed array
fall through, and the following valid strategy's data is returned. -/
theorem first_valid_strategy_witness :
    extractCustodyDataFromHTML
        (wFrontStrats ++ .parsed wValidData :: [.parsedNonArray]) = some wValidData :=
  (first_valid_strategy wFrontStrats [.parsedNonArray] wValidData
    (by decide) (by decide)).1

end Visor

namespace Visor

/-- Claim C2: `currentlyInCustody` in the summary is true iff the
chronologically last record (after sorting by intake date) has an absent
(`null`) release date — on the spec's data-model domain, where a release
date is a (non-empty) date string or absent; and on empty input the builder
returns an empty entry list, `totalRecords = 0`, and
`currentlyInCustody = false`. -/
theorem currently_in_custody_iff :
    (∀ iic l r, (∀ x ∈ l, x.idoc_releasedate ≠ DateField.emptyStr) →
      (sortRecords l).getLast? = some r →
      ((processCustodyData iic l).currentlyInCustody = true ↔
        r.idoc_releasedate = DateField.null))
    ∧ ∀ iic, processCustodyData iic [] = ⟨iic, 0, [], false⟩ := by
  constructor
  · intro iic l r hwf hl
    have hmem : r ∈ l := by
      have hr : r ∈ sortRecords l := by
        obtain ⟨ys, hys⟩ := List.getLast?_eq_some_iff.mp hl
        rw [hys]
        simp
      exact (List.perm_insertionSort intakeLE l).mem_iff.mp hr
    have hne := hwf r hmem
    have hcur : (processCustodyData iic l).currentlyInCustody
        = !r.idoc_releasedate.truthy := by
      simp [processCustodyData, hl]
    rw [hcur]
    cases hrel : r.idoc_releasedate with
    | null => simp [DateField.truthy]
    | emptyStr => exact absurd hrel hne
    | val m => simp [DateField.truthy]
  · intro iic
    rfl

/-- Last record with a `null` release date, used to instantiate claim C2. -/
def wLast : RawCustodyRecord := ⟨"L", "F", .val 7, .null⟩

/-- Claim C2, instantiated at a one-record list and at the empty list. -/
theorem currently_in_custody_iff_witness :
    ((processCustodyData "w2" [wLast]).currentlyInCustody = true ↔
      wLast.idoc_releasedate = DateField.null)
    ∧ processCustodyData "w2" [] = ⟨"w2", 0, [], false⟩ :=
  ⟨currently_in_custody_iff.1 "w2" [wLast] wLast (by decide) (by decide),
   currently_in_custody_iff.2 "w2"⟩

theorem mem_buildEntries_gap (l : List RawCustodyRecord) (e : TimelineEntry)
    (he : e ∈ buildEntries l) (hg : e.isGap = true) :
    ∃ r r', e = mkGap r r' ∧ 0 < gapMs r r' := by
  induction l with
  | nil => cases he
  | cons r t ih =>
    cases t with
    | nil =>
      rcases List.mem_singleton.mp he with rfl
      simp [mkCustody, TimelineEntry.isGap] at hg
    | cons r' rest =>
      rw [buildEntries_cons_cons] at he
      rcases List.mem_cons.mp he with rfl | hmem
      · simp [mkCustody, TimelineEntry.isGap] at hg
      · rcases List.mem_append.mp hmem with hmg | hrest
        · rcases maybeGap_eq_nil_or r r' with h0 | ⟨h0, _, _, h3⟩
          · rw [h0] at hmg
            cases hmg
          · rw [h0] at hmg
            rcases List.mem_singleton.mp hmg with rfl
            exact ⟨r, r', rfl, h3⟩
        · exact ih hrest

/-- Claim C9: every gap entry the builder emits is a consistent truncated
decomposition of its duration: `0 ≤ hours < 24`, `0 ≤ minutes < 60`,
`days ≥ 0`, and the recombined day/hour/minute total brackets `durationMs`
to within one minute. -/
theorem gap_entry_bounds (l : List RawCustodyRecord) (e : TimelineEntry)
    (he : e ∈ buildEntries l) (hg : e.isGap = true) :
    0 < e.durMs
    ∧ 0 ≤ e.gDays ∧ 0 ≤ e.gHours ∧ e.gHours < 24
    ∧ 0 ≤ e.gMinutes ∧ e.gMinutes < 60
    ∧ e.gDays * 86400000 + e.gHours * 3600000 + e.gMinutes * 60000 ≤ e.durMs
    ∧ e.durMs <
        e.gDays * 86400000 + e.gHours * 3600000 + (e.gMinutes + 1) * 60000 := by
  obtain ⟨r, r', rfl, hpos⟩ := mem_buildEntries_gap l e he hg
  simp only [mkGap, TimelineEntry.durMs, TimelineEntry.gDays,
    TimelineEntry.gHours, TimelineEntry.gMinutes]
  omega

/-- Two records with a 60000 ms gap, used to instantiate claim C9. -/
def wBounds : List RawCustodyRecord :=
  [⟨"P", "F", .val 0, .val 1000⟩, ⟨"Q", "G", .val 61000, .null⟩]

/-- The gap entry emitted for `wBounds`. -/
def wBoundsGap : TimelineEntry :=
  .outOfCustody 60000 0 0 1 (.val 1000) (.val 61000)

/-- Claim C9, instantiated at the 60000 ms gap entry of `wBounds`. -/
theorem gap_entry_bounds_witness :
    0 < wBoundsGap.durMs
    ∧ 0 ≤ wBoundsGap.gDays ∧ 0 ≤ wBoundsGap.gHours ∧ wBoundsGap.gHours < 24
    ∧ 0 ≤ wBoundsGap.gMinutes ∧ wBoundsGap.gMinutes < 60
    ∧ wBoundsGap.gDays * 86400000 + wBoundsGap.gHours * 3600000
        + wBoundsGap.gMinutes * 60000 ≤ wBoundsGap.durMs
    ∧ wBoundsGap.durMs < wBoundsGap.gDays * 86400000
        + wBoundsGap.gHours * 3600000 + (wBoundsGap.gMinutes + 1) * 60000 :=
  gap_entry_bounds wBounds wBoundsGap (by decide) (by decide)

end Visor

namespace Visor

/-- Membership test for one intake-key class, used to state stability: a
sort is stable iff it preserves, for every key, the subsequence of elements
carrying that key. -/
def keyFilter (k : Int) : RawCustodyRecord → Bool :=
  fun r => decide (intakeKey r = k)

theorem filter_orderedInsert (k : Int) (a : RawCustodyRecord)
    (l : List RawCustodyRecord) :
    (List.orderedInsert intakeLE a l).filter (keyFilter k) =
      if intakeKey a = k then a :: l.filter (keyFilter k)
      else l.filter (keyFilter k) := by
  induction l with
  | nil =>
    by_cases hk : intakeKey a = k <;> simp [keyFilter, hk]
  | cons b t ih =>
    rw [List.orderedInsert]
    by_cases hab : intakeLE a b
    · rw [if_pos hab]
      by_cases hk : intakeKey a = k <;> simp [List.filter_cons, keyFilter, hk]
    · rw [if_neg hab]
      have hlt : intakeKey b < intakeKey a := not_le.mp hab
      by_cases hk : intakeKey a = k
      · have hbk : keyFilter k b = false := by
          simp only [keyFilter, decide_eq_false_iff_not]
          omega
        simp [List.filter_cons, hbk, ih, hk]
      · simp [List.filter_cons, ih, hk]

theorem filter_sortRecords (k : Int) (l : List RawCustodyRecord) :
    (sortRecords l).filter (keyFilter k) = l.filter (keyFilter k) := by
  induction l with
  | nil => rfl
  | cons a t ih =>
    show (List.orderedInsert intakeLE a
        (List.insertionSort intakeLE t)).filter (keyFilter k) = _
    rw [filter_orderedInsert]
    by_cases hk : intakeKey a = k
    · rw [if_pos hk]
      rw [show List.insertionSort intakeLE t = sortRecords t from rfl, ih]
      simp [List.filter_cons, keyFilter, hk]
    · rw [if_neg hk]
      rw [show List.insertionSort intakeLE t = sortRecords t from rfl, ih]
      simp [List.filter_cons, keyFilter, hk]

theorem stable_sort_unique :
    ∀ l1 l2 : List RawCustodyRecord,
      List.Pairwise intakeLE l1 → List.Pairwise intakeLE l2 →
      (∀ k, l1.filter (keyFilter k) = l2.filter (keyFilter k)) → l1 = l2 := by
  intro l1
  induction l1 with
  | nil =>
    intro l2 _ _ hf
    cases l2 with
    | nil => rfl
    | cons b t2 =>
      have h0 := hf (intakeKey b)
      simp [keyFilter] at h0
  | cons a t1 ih =>
    intro l2 h1 h2 hf
    cases l2 with
    | nil =>
      have h0 := hf (intakeKey a)
      simp [keyFilter] at h0
    | cons b t2 =>
      have h1' := List.pairwise_cons.mp h1
      have h2' := List.pairwise_cons.mp h2
      have hba : intakeKey b ≤ intakeKey a := by
        have h0 := hf (intakeKey a)
        rw [show (a :: t1).filter (keyFilter (intakeKey a))
            = a :: t1.filter (keyFilter (intakeKey a)) by simp [keyFilter]] at h0
        have hne : (b :: t2).filter (keyFilter (intakeKey a)) ≠ [] := by
          rw [← h0]
          simp
        obtain ⟨y, hy⟩ := List.exists_mem_of_ne_nil _ hne
        have hyk : intakeKey y = intakeKey a := by
          simpa [keyFilter] using List.of_mem_filter hy
        rcases List.mem_cons.mp (List.mem_of_mem_filter hy) with rfl | hy'
        · exact le_of_eq hyk
        · exact hyk ▸ h2'.1 y hy'
      have hab : intakeKey a ≤ intakeKey b := by
        have h0 := (hf (intakeKey b)).symm
        rw [show (b :: t2).filter (keyFilter (intakeKey b))
            = b :: t2.filter (keyFilter (intakeKey b)) by simp [keyFilter]] at h0
        have hne : (a :: t1).filter (keyFilter (intakeKey b)) ≠ [] := by
          rw [← h0]
          simp
        obtain ⟨y, hy⟩ := List.exists_mem_of_ne_nil _ hne
        have hyk : intakeKey y = intakeKey b := by
          simpa [keyFilter] using List.of_mem_filter hy
        rcases List.mem_cons.mp (List.mem_of_mem_filter hy) with rfl | hy'
        · exact le_of_eq hyk
        · exact hyk ▸ h1'.1 y hy'
      have hk : intakeKey b = intakeKey a := le_antisymm hba hab
      have h0 := hf (intakeKey a)
      rw [show (a :: t1).filter (keyFilter (intakeKey a))
          = a :: t1.filter (keyFilter (intakeKey a)) by simp [keyFilter],
        show (b :: t2).filter (keyFilter (intakeKey a))
          = b :: t2.filter (keyFilter (intakeKey a)) by simp [keyFilter, hk]] at h0
      injection h0 with hhead htail
      subst hhead
      have hft : ∀ k, t1.filter (keyFilter k) = t2.filter (keyFilter k) := by
        intro k
        by_cases hk2 : intakeKey a = k
        · rw [← hk2]
          exact htail
        · simpa [List.filter_cons, keyFilter, hk2] using hf k
      rw [ih t2 h1'.2 h2'.2 hft]

/-- Claim C5: the builder's sort is exactly a stable ascending sort keyed on
the intake date with absent dates keyed as the epoch: it permutes the input,
is sorted by the key, preserves each key class's original subsequence
(stability — equal-key records keep their relative order), a record with a
falsy intake date has key 0, and any list with those properties is equal to
the builder's sort. -/
theorem sort_refinement :
    (∀ l, (sortRecords l).Perm l)
    ∧ (∀ l, List.Pairwise intakeLE (sortRecords l))
    ∧ (∀ l k, (sortRecords l).filter (keyFilter k) = l.filter (keyFilter k))
    ∧ (∀ r, r.savin_intakedate.truthy = false → intakeKey r = 0)
    ∧ (∀ l other, List.Pairwise intakeLE other →
        (∀ k, other.filter (keyFilter k) = l.filter (keyFilter k)) →
        sortRecords l = other) := by
  refine ⟨fun l => List.perm_insertionSort intakeLE l,
    fun l => List.sorted_insertionSort intakeLE l,
    fun l k => filter_sortRecords k l, ?_, ?_⟩
  · intro r h
    unfold intakeKey
    cases hr : r.savin_intakedate with
    | null => rfl
    | emptyStr => rfl
    | val m =>
      rw [hr] at h
      exact absurd h (by simp [DateField.truthy])
  · intro l other hs hfilt
    exact stable_sort_unique (sortRecords l) other
      (List.sorted_insertionSort intakeLE l) hs
      (fun k => (filter_sortRecords k l).trans (hfilt k).symm)

/-- An already key-sorted list with two equal-key records, used to
instantiate claim C5. -/
def wSortIn : List RawCustodyRecord :=
  [⟨"S1", "F", .val 10, .null⟩, ⟨"S2", "G", .val 10, .emptyStr⟩,
   ⟨"S3", "H", .val 20, .null⟩]

/-- Claim C5, instantiated: the unique-stable-sort conjunct applied to a
concrete sorted list with an equal-key pair. -/
theorem sort_refinement_witness : sortRecords wSortIn = wSortIn :=
  sort_refinement.2.2.2.2 wSortIn wSortIn (by decide) (fun k => rfl)

end Visor
